import Mathlib

/-!
Verification of the response post-processing pipeline of `cogs/ai_chat.py`
(class `AIChat`): fragment extraction between the literal markers, the
`_execute_kb_code` executor, reassembly of the final response, chunked
delivery via `textwrap.wrap`, the `kb_add` persistence path and the
`get_ai_stats` accessor.

Strings are modelled as `List Char`; Python `str.strip`, `str.expandtabs`,
the two `re.sub` fence strippers and `textwrap.wrap` (with the exact option
set used at `ai_chat.py:449`) are translated operation by operation.
Running a fragment with `exec` is opaque to the model, so the executor is
parametrised by an execution behaviour `List Char -> ExecOutcome`: for a
given source text the fragment either never terminates, terminates normally
with its captured stdout, raises an exception deriving from `Exception`
(with the rendering of that exception succeeding or itself raising), or
raises an exception outside the `Exception` hierarchy such as `SystemExit`.
-/

namespace AiChat

/-- Python `\s` on the ASCII range: the whitespace classification used by
`str.strip`, `re.split(r'(\s+)')` and the fence regexes. -/
def isSpace (c : Char) : Bool :=
  c = ' ' || c = '\t' || c = '\n' || c = '\r' || c = '\x0b' || c = '\x0c'

/-- Removal of trailing whitespace (the right half of Python `str.strip`). -/
def dropTrailWs (s : List Char) : List Char :=
  (s.reverse.dropWhile isSpace).reverse

/-- Python `str.strip()`: remove leading and trailing whitespace. -/
def pyStrip (s : List Char) : List Char :=
  dropTrailWs (s.dropWhile isSpace)

/-- `PYTHON_EXEC_START_MARKER` (`ai_chat.py:37`). -/
def startMarker : List Char := String.toList "%%PYTHON_EXECUTE_BLOCK_START%%"

/-- `PYTHON_EXEC_END_MARKER` (`ai_chat.py:38`). -/
def endMarker : List Char := String.toList "%%PYTHON_EXECUTE_BLOCK_END%%"

/-- Index of the first occurrence of `pat` as a contiguous sublist of `s`. -/
def firstIdx (pat : List Char) : List Char → Option Nat
  | [] => if pat.isEmpty then some 0 else none
  | c :: t => if pat.isPrefixOf (c :: t) then some 0 else (firstIdx pat t).map Nat.succ

/-- One step of the compiled pattern
`START(.*?)END` with `re.DOTALL` (`ai_chat.py:381`): the leftmost match.
Returns the text before the match, the raw group between the markers
(non-greedy, so up to the first end marker after the start marker) and the
text after the match. -/
def splitFirst (s : List Char) : Option (List Char × List Char × List Char) :=
  match firstIdx startMarker s with
  | none => none
  | some i =>
      let rest := s.drop (i + startMarker.length)
      match firstIdx endMarker rest with
      | none => none
      | some j => some (s.take i, rest.take j, rest.drop (j + endMarker.length))

/-- The literal ````python` fence opener matched case-insensitively by the
first `re.sub` at `ai_chat.py:395`. -/
def pythonFence : List Char := String.toList "```python"

/-- `re.sub(r'^\s*```python\s*\n?', '', raw, flags=re.IGNORECASE)`
(`ai_chat.py:395`).  The anchored pattern matches exactly when the text
after its leading whitespace run begins with a case-insensitive
`` ```python ``; the greedy `\s*\n?` then absorbs every following
whitespace character, so the whole leading region up to the first
non-whitespace character after the tag is deleted. -/
def stripLeadFence (s : List Char) : List Char :=
  let t := s.dropWhile isSpace
  if (t.take pythonFence.length).map Char.toLower = pythonFence then
    (t.drop pythonFence.length).dropWhile isSpace
  else s

/-- Does `\n?\s*```\s*$` match starting exactly here?  Deterministically:
after an initial whitespace run the text must present `` ``` `` and then
nothing but whitespace up to the end. -/
def trailFenceHere (s : List Char) : Bool :=
  let u := s.dropWhile isSpace
  (String.toList "```").isPrefixOf u && (u.drop 3).all isSpace

/-- Start position of the leftmost match of `\n?\s*```\s*$`, scanning
positions left to right as `re.sub` does. -/
def trailFenceIdx : List Char → Option Nat
  | [] => none
  | c :: t =>
      if trailFenceHere (c :: t) then some 0 else (trailFenceIdx t).map Nat.succ

/-- `re.sub(r'\n?\s*```\s*$', '', s)` (`ai_chat.py:396`): every match of the
pattern extends to the end of the string, so substitution truncates at the
leftmost match position. -/
def stripTrailFence (s : List Char) : List Char :=
  match trailFenceIdx s with
  | some p => s.take p
  | none => s

/-- Lines 393-397 of `ai_chat.py`: `match.group(1).strip()`, the two fence
substitutions, and the final `.strip()`, producing `code_to_execute`. -/
def extractCode (frag : List Char) : List Char :=
  pyStrip (stripTrailFence (stripLeadFence (pyStrip frag)))

/-- The two execution counters of `self.ai_stats` touched by
`_execute_kb_code` (`ai_chat.py:184` and `ai_chat.py:212`). -/
structure AiStats where
  codeExecutions : Nat
  codeExecutionErrors : Nat
deriving DecidableEq, Repr

/-- Outcome of `exec(code_to_run, {})` for one fragment, as observable by
`_execute_kb_code`:
* `hangs` — the fragment never terminates;
* `normal out` — it terminates normally with stdout `out`;
* `raisedExc out render` — it raises an exception deriving from `Exception`,
  which the `except Exception` clause at `ai_chat.py:211` catches; `render`
  is the outcome of the `f"{type(e).__name__}: {e}"` rendering later
  attempted at line 245: `some details` when the f-string succeeds, `none`
  when `str(e)` itself raises;
* `raisedBase` — it raises an exception not deriving from `Exception`
  (for example `SystemExit` from `sys.exit()`), which the `except Exception`
  clause does not catch. -/
inductive ExecOutcome
  | hangs
  | normal (out : List Char)
  | raisedExc (out : List Char) (render : Option (List Char))
  | raisedBase
deriving DecidableEq, Repr

/-- `_execute_kb_code` is parametric in what `exec` does per code string. -/
def ExecBehavior : Type := List Char → ExecOutcome

def outHeader : List Char := String.toList "**Execution Output:**\n```\n"

def outFooter : List Char := String.toList "\n```\n"

def noOutputLine : List Char :=
  String.toList "**Execution Output:**\n[No output produced by the code]\n"

def errHeader : List Char := String.toList "**Execution Error:**\n```\n"

def errFooter : List Char := String.toList "\n```"

def noResultLine : List Char :=
  String.toList "[Code execution completed with no output or error message]"

/-- Truncation of the stdout preview at 500 characters (`ai_chat.py:233`). -/
def previewOf (p : List Char) : List Char :=
  if 500 < p.length then p.take 500 ++ String.toList "\n... (output truncated)" else p

/-- Truncation of the error details at 300 characters (`ai_chat.py:247`). -/
def truncErr (e : List Char) : List Char :=
  if 300 < e.length then e.take 300 ++ String.toList "... (error truncated)" else e

/-- The formatted error section appended at `ai_chat.py:251`. -/
def errBlock (e : List Char) : List Char := errHeader ++ truncErr e ++ errFooter

/-- The report-formatting tail of `_execute_kb_code` (`ai_chat.py:227`-`257`):
the stdout section when the stripped output is non-empty, the absence notice
when there is neither output nor error, then the error section, and a final
`.strip()` (with the fixed fallback line when nothing at all was emitted). -/
def formatExecResult (out : List Char) (err : Option (List Char)) : List Char :=
  let stripped := pyStrip out
  let outPart :=
    if stripped.isEmpty then
      if err.isNone then noOutputLine else []
    else outHeader ++ previewOf stripped ++ outFooter
  let errPart := match err with
    | some e => errBlock e
    | none => []
  let raw := outPart ++ errPart
  if raw.isEmpty then noResultLine else pyStrip raw

/-- What a call to `_execute_kb_code` does to its caller: return a report
string, let an exception propagate past the method, or never return. -/
inductive ExecResult
  | report (r : List Char) (st : AiStats)
  | raisesToCaller (st : AiStats)
  | hangs
deriving DecidableEq, Repr

/-- `AIChat._execute_kb_code` (`ai_chat.py:179`-`257`).  The attempt counter
is bumped at line 184, before the `exec` call.  A fragment that never
terminates keeps the awaited `asyncio.to_thread(exec, ...)` from completing,
so the call produces nothing.  An exception deriving from `Exception` is
caught at line 211 and bumps the error counter at line 212; the formatting
tail then renders it at line 245 — that f-string runs outside any `try`, so
when `str(e)` itself raises, the new exception escapes the method.  An
exception not deriving from `Exception` passes the `except Exception`
clause (the `finally` only restores stdout) and escapes the method with the
error counter untouched.  Otherwise the formatted report is returned. -/
def executeKbCode (behav : ExecBehavior) (code : List Char) (st : AiStats) :
    ExecResult :=
  let st1 : AiStats := { st with codeExecutions := st.codeExecutions + 1 }
  match behav code with
  | .hangs => .hangs
  | .normal out => .report (formatExecResult out none) st1
  | .raisedExc out render =>
      let st2 : AiStats := { st1 with codeExecutionErrors := st1.codeExecutionErrors + 1 }
      match render with
      | some details => .report (formatExecResult out (some details)) st2
      | none => .raisesToCaller st2
  | .raisedBase => .raisesToCaller st1

/-- The fixed empty-block placeholder of `ai_chat.py:408`. -/
def emptyNotice : List Char :=
  String.toList "\n[Notice: An empty Python execution block was generated by the AI.]\n"

/-- Lines 408-410: the placeholder, preceded by one extra newline when the
accumulated text is non-empty and does not already end in a blank line. -/
def emptyPad (acc : List Char) : List Char :=
  if acc.isEmpty then emptyNotice
  else if (String.toList "\n\n").isSuffixOf acc then emptyNotice
  else '\n' :: emptyNotice

/-- Result of the post-processing loop of `AIChat.ask`
(`ai_chat.py:378`-`436`).  `ok` carries the reassembled text, the execution
counters and the list of code strings handed to `_execute_kb_code`;
`unboundLocalSeparator` is the `UnboundLocalError` raised at
`ai_chat.py:422`-`423`, where `separator_start` and `separator_end` are read
although their assignments at lines 420-421 are commented out;
`executorRaised` records an exception escaping `_execute_kb_code` itself
(both it and the `UnboundLocalError` are caught by the handler at line 483);
`hangs` records that an `exec` call never returned. -/
inductive AskOutcome
  | ok (text : List Char) (st : AiStats) (executed : List (List Char))
  | unboundLocalSeparator (st : AiStats) (executed : List (List Char))
  | executorRaised (st : AiStats) (executed : List (List Char))
  | hangs
deriving DecidableEq, Repr

/-- The `for match in matches` loop of `AIChat.ask`, one marker match per
step.  Each successful match removes at least the two markers from the
remaining text, so `fuel = s.length + 1` (set by `processResponse`) is
always sufficient; the fuel-exhausted branch coincides with the no-match
branch.  For an empty `code_to_execute` the placeholder is spliced
(lines 406-411); otherwise `_execute_kb_code` is awaited and the splice at
lines 422-423 raises `UnboundLocalError`. -/
def processAux (behav : ExecBehavior) :
    Nat → List Char → AiStats → List (List Char) → List Char → AskOutcome
  | 0, acc, st, execd, s => .ok (acc ++ s) st execd
  | fuel + 1, acc, st, execd, s =>
      match splitFirst s with
      | none => .ok (acc ++ s) st execd
      | some (pre, frag, rest) =>
          let code := extractCode frag
          let acc1 := acc ++ pre
          if code.isEmpty then
            processAux behav fuel (acc1 ++ emptyPad acc1) st execd rest
          else
            match executeKbCode behav code st with
            | .hangs => .hangs
            | .raisesToCaller st2 => .executorRaised st2 (execd ++ [code])
            | .report _report st2 => .unboundLocalSeparator st2 (execd ++ [code])

/-- The post-processing step of `AIChat.ask` applied to one raw model
response. -/
def processResponse (behav : ExecBehavior) (st : AiStats) (s : List Char) : AskOutcome :=
  processAux behav (s.length + 1) [] st [] s

/-- `str.expandtabs(tabsize)` as run by `textwrap._munge_whitespace` with the
default `expand_tabs=True, tabsize=8`: a tab becomes spaces up to the next
tab stop, newline and carriage return reset the column. -/
def expandTabsAux (ts : Nat) : Nat → List Char → List Char
  | _, [] => []
  | col, c :: t =>
      if c = '\t' then
        let k := ts - col % ts
        List.replicate k ' ' ++ expandTabsAux ts (col + k) t
      else if c = '\n' ∨ c = '\r' then c :: expandTabsAux ts 0 t
      else c :: expandTabsAux ts (col + 1) t

def expandTabs (ts : Nat) (s : List Char) : List Char := expandTabsAux ts 0 s

/-- `re.split(r'(\s+)', text)` with empty pieces filtered out
(`textwrap._split` with `break_on_hyphens=False`): the maximal runs of
whitespace and of non-whitespace characters, in order.  `fuel` bounds the
recursion; every step consumes at least the head character, so the caller
passes `fuel = s.length`. -/
def splitRunsAux : Nat → List Char → List (List Char)
  | 0, _ => []
  | fuel + 1, s =>
      match s with
      | [] => []
      | c :: t =>
          let p := t.span (fun x => isSpace x == isSpace c)
          (c :: p.1) :: splitRunsAux fuel p.2

def splitRuns (s : List Char) : List (List Char) := splitRunsAux s.length s

/-- The inner `while chunks` loop of `textwrap._wrap_chunks`: greedily take
chunks while the running length stays within `w`.  Returns the taken chunks
and the remainder. -/
def takeGreedy (w : Nat) : Nat → List (List Char) → (List (List Char) × List (List Char))
  | _, [] => ([], [])
  | n, c :: rest =>
      if n + c.length ≤ w then
        let p := takeGreedy w (n + c.length) rest
        (c :: p.1, p.2)
      else ([], c :: rest)

/-- The outer loop of `textwrap._wrap_chunks` under the option set of
`ai_chat.py:449` (`drop_whitespace=False`, `break_long_words=False`, no
indents, no `max_lines`): a chunk within the width starts a line that is
filled greedily; a chunk wider than `w` is emitted alone and unsplit
(`_handle_long_word` with `break_long_words=False` appends it whole to the
empty current line).  Each step consumes at least the head chunk, so
`fuel = chunks.length` is always sufficient. -/
def wrapAux (w : Nat) : Nat → List (List Char) → List (List Char)
  | 0, _ => []
  | fuel + 1, chunks =>
      match chunks with
      | [] => []
      | c :: rest =>
          if c.length ≤ w then
            let p := takeGreedy w c.length rest
            (c :: p.1).flatten :: wrapAux w fuel p.2
          else c :: wrapAux w fuel rest

/-- `textwrap.wrap(text, w, replace_whitespace=False, drop_whitespace=False,
break_long_words=False, break_on_hyphens=False)` (`ai_chat.py:449`):
whitespace munging (tab expansion only, since `replace_whitespace` is off),
the simple whitespace split, and the chunk wrapping loop. -/
def pyWrap (w : Nat) (s : List Char) : List (List Char) :=
  let chunks := splitRuns (expandTabs 8 s)
  wrapAux w chunks.length chunks

/-- The chunking step of `AIChat.ask` (`ai_chat.py:446`-`458`): a response
within `max_length = 1990` characters is sent as a single message, a longer
one is split with `textwrap.wrap`. -/
def chunkMessage (s : List Char) : List (List Char) :=
  if 1990 < s.length then pyWrap 1990 s else [s]

/-- The in-memory `self.knowledge_base` mapping, KB name to content. -/
def KbMap : Type := List (List Char × List Char)

/-- `self.knowledge_base[name] = content_str` on a Python dict: overwrite the
entry if the key is present, otherwise append it. -/
def kbUpsert (kb : KbMap) (name content : List Char) : KbMap :=
  match kb with
  | [] => [(name, content)]
  | (k, v) :: rest =>
      if k = name then (k, content) :: rest else (k, v) :: kbUpsert rest name content

/-- The user-visible outcome of `kb_add` past validation. -/
inductive KbReply
  | added (name : List Char) (size : Nat)
  | saveFailed (err : List Char)
deriving DecidableEq, Repr

/-- The persistence tail of `AIChat.kb_add` (`ai_chat.py:585`-`601`), entered
after the attachment was downloaded, decoded and the name sanitised: the
file write happens first (lines 586-588); only if it succeeds is the
in-memory mapping updated (line 591) and success reported (line 593).  An
`IOError` from the write is caught at line 599 and reported as a failure
notice, with the memory update never reached.  `writeRes` is the outcome
of the `open`/`write` call. -/
def kbAdd (kb : KbMap) (name content : List Char)
    (writeRes : Except (List Char) Unit) : KbMap × KbReply :=
  match writeRes with
  | .error e => (kb, .saveFailed e)
  | .ok _ => (kbUpsert kb name content, .added name content.length)

/-- One value of `self.ai_stats["user_questions"]` (`ai_chat.py:467`-`473`). -/
structure UserStat where
  username : List Char
  count : Nat
  lastQuestion : Option (List Char)
  lastTimestamp : Option (List Char)
deriving DecidableEq, Repr

/-- One element of the `top_users` list built at `ai_chat.py:723`-`732`. -/
structure TopUser where
  username : List Char
  questionCount : Nat
  lastQuestion : Option (List Char)
  lastTimestamp : Option (List Char)
deriving DecidableEq, Repr

/-- The comparison realised by
`sorted(..., key=lambda item: item[1].get("count", 0), reverse=True)`
(`ai_chat.py:716`-`720`): a user sorts before another when its question
count is at least as large. -/
def byCountDesc (a b : List Char × UserStat) : Prop := b.2.count ≤ a.2.count

instance : DecidableRel byCountDesc := fun a b => Nat.decLe b.2.count a.2.count

instance : IsTotal (List Char × UserStat) byCountDesc :=
  ⟨fun a b => Nat.le_total b.2.count a.2.count⟩

instance : IsTrans (List Char × UserStat) byCountDesc :=
  ⟨fun _ _ _ hab hbc => Nat.le_trans hbc hab⟩

/-- The `top_users` computation of `AIChat.get_ai_stats`
(`ai_chat.py:712`-`734`): when the per-user map is non-empty, sort its
entries by descending question count, keep the first five, and project each
onto the display fields; otherwise the list stays empty. -/
def topUsersOf (users : List (List Char × UserStat)) : List TopUser :=
  match users with
  | [] => []
  | _ :: _ =>
      ((users.insertionSort byCountDesc).take 5).map fun u =>
        { username := u.2.username
          questionCount := u.2.count
          lastQuestion := u.2.lastQuestion
          lastTimestamp := u.2.lastTimestamp }

/-- The snapshot returned by `AIChat.get_ai_stats` (`ai_chat.py:693`-`738`),
restricted to the fields the stats consumers read. -/
structure StatsSnapshot where
  totalQuestions : Nat
  totalResets : Nat
  activeConversations : Nat
  codeExecutionsAttempted : Nat
  codeExecutionErrors : Nat
  kbDocumentsLoaded : Nat
  topUsers : List TopUser

/-- `AIChat.get_ai_stats`, with the cog state passed explicitly: the global
counters, the number of active conversations, the number of loaded KB
documents, and the `top_users` list. -/
def getAiStats (totalQuestions totalResets activeConversations kbLoaded : Nat)
    (codeExecutions codeExecutionErrors : Nat)
    (users : List (List Char × UserStat)) : StatsSnapshot :=
  { totalQuestions := totalQuestions
    totalResets := totalResets
    activeConversations := activeConversations
    codeExecutionsAttempted := codeExecutions
    codeExecutionErrors := codeExecutionErrors
    kbDocumentsLoaded := kbLoaded
    topUsers := topUsersOf users }

/-- The executor call returned a report string (as opposed to letting an
exception escape or never returning). -/
def isReport : ExecResult → Bool
  | .report _ _ => true
  | _ => false

/-- `res` is a completed executor call whose report ends in `suf`. -/
def reportHasSuffix (res : ExecResult) (suf : List Char) : Prop :=
  match res with
  | .report r _ => List.IsSuffix suf r
  | _ => False

/-- Execution behaviour of spec scenario 1: the fragment `print(1+1)` prints
`2` and raises nothing. -/
def scenario1Behavior : ExecBehavior := fun c =>
  if c = String.toList "print(1+1)" then .normal (String.toList "2\n") else .hangs

/-- Execution behaviour of a fragment that never terminates. -/
def hangBehavior : ExecBehavior := fun _ => .hangs

/-- Execution behaviour of a fragment that prints `hi` and then raises
`ValueError: boom`, an `Exception` whose rendering succeeds. -/
def raiseBehavior : ExecBehavior := fun _ =>
  .raisedExc (String.toList "hi") (some (String.toList "ValueError: boom"))

/-- Execution behaviour of a fragment that calls `sys.exit()`: the raised
`SystemExit` derives from `BaseException` but not from `Exception`. -/
def sysExitBehavior : ExecBehavior := fun _ => .raisedBase

/-- Execution behaviour of a fragment raising an `Exception` whose `str`
itself raises, so the rendering at `ai_chat.py:245` fails. -/
def badStrBehavior : ExecBehavior := fun _ => .raisedExc [] none

end AiChat

namespace AiChat

theorem splitFirst_test1 :
    splitFirst (String.toList "a%%PYTHON_EXECUTE_BLOCK_START%%xy%%PYTHON_EXECUTE_BLOCK_END%%b") =
      some (String.toList "a", String.toList "xy", String.toList "b") := by
  decide

theorem splitFirst_test2 : splitFirst (String.toList "hello there") = none := by decide

theorem extractCode_test1 :
    extractCode (String.toList "\n```python\nprint(1)\n```\n") = String.toList "print(1)" := by
  decide

theorem extractCode_test2 :
    extractCode (String.toList "```js\nprint(1)\n```") = String.toList "```js\nprint(1)" := by
  decide

theorem pyWrap_test1 :
    pyWrap 5 (String.toList "aa bb cc") =
      [String.toList "aa bb", String.toList " cc"] := by
  decide

theorem pyWrap_test2 :
    pyWrap 3 (String.toList "abcdefg hi") =
      [String.toList "abcdefg", String.toList " hi"] := by
  decide

theorem expandTabs_test :
    expandTabs 8 (String.toList "a\tb") = String.toList "a       b" := by decide

/-- If `dropWhile` keeps a non-empty list unchanged, its head fails the
predicate. -/
theorem head_false_of_dropWhile_eq (p : Char → Bool) (c : Char) (r : List Char)
    (h : (c :: r).dropWhile p = c :: r) : p c = false := by
  by_cases hc : p c = true
  · exfalso
    have hlen : (r.dropWhile p).length ≤ r.length := (r.dropWhile_sublist p).length_le
    rw [List.dropWhile_cons_of_pos hc] at h
    have := congrArg List.length h
    simp at this
    omega
  · simpa using hc

/-- Dropping leading whitespace from `x ++ suf` keeps the whole of `suf`
when `suf` starts with a non-whitespace character. -/
theorem dropWhile_append_suffix (p : Char → Bool) (x : List Char) (c : Char) (r : List Char)
    (hc : p c = false) : ∃ y, (x ++ (c :: r)).dropWhile p = y ++ (c :: r) := by
  induction x with
  | nil => exact ⟨[], by simp [List.dropWhile_cons, hc]⟩
  | cons a t ih =>
      by_cases ha : p a = true
      · obtain ⟨y, hy⟩ := ih
        exact ⟨y, by simpa [List.dropWhile_cons, ha] using hy⟩
      · exact ⟨a :: t, by simp [List.dropWhile_cons, ha]⟩

/-- Dropping trailing whitespace keeps `x ++ suf` intact when the last
character of `suf` is not whitespace. -/
theorem dropTrailWs_append (x suf : List Char) (c : Char) (r : List Char)
    (h : suf.reverse = c :: r) (hc : isSpace c = false) :
    dropTrailWs (x ++ suf) = x ++ suf := by
  unfold dropTrailWs
  rw [List.reverse_append, h]
  have hsuf : (c :: r).reverse = suf := by rw [← h, List.reverse_reverse]
  have hd : ((c :: r) ++ x.reverse).dropWhile isSpace = (c :: r) ++ x.reverse := by
    rw [List.cons_append, List.dropWhile_cons]
    simp [hc]
  rw [hd, List.reverse_append, List.reverse_reverse, hsuf]

/-- The error section starts with an asterisk. -/
theorem errBlock_cons (e : List Char) :
    ∃ t, errBlock e = '*' :: t := ⟨_, rfl⟩

/-- The error section ends with a backtick. -/
theorem errBlock_reverse (e : List Char) :
    ∃ t, (errBlock e).reverse = '`' :: t := by
  refine ⟨String.toList "``\n" ++ (errHeader ++ truncErr e).reverse, ?_⟩
  have h : errBlock e = (errHeader ++ truncErr e) ++ errFooter := by
    simp [errBlock]
  rw [h, List.reverse_append]
  rfl


/-- C1: the claim expects the marked region to be replaced by a formatted
block with the stdout section; in the code the splice at
`ai_chat.py:422`-`423` reads `separator_start`, whose assignment at lines
420-421 is commented out, so processing the scenario-1 response raises
`UnboundLocalError` after `_execute_kb_code` returned its report: the block
is never spliced, and the `ask` handler falls through to its generic
apology.  The attempt counter was already bumped to 1 and no execution error
occurred. -/
theorem c1_nonempty_fragment_raises :
    processResponse scenario1Behavior ⟨0, 0⟩
        (String.toList
          "before %%PYTHON_EXECUTE_BLOCK_START%%\nprint(1+1)\n%%PYTHON_EXECUTE_BLOCK_END%% after") =
      .unboundLocalSeparator ⟨1, 0⟩ [String.toList "print(1+1)"] := by
  decide

/-- C2 counterexample: the claim promises a distinct timed-out report for a
non-terminating fragment, but `_execute_kb_code` awaits
`asyncio.to_thread(exec, ...)` with no timeout whatsoever, so on a fragment
that never terminates the call never returns any report at all. -/
theorem c2_counterexample :
    executeKbCode hangBehavior (String.toList "while True: pass") ⟨0, 0⟩ =
      .hangs := rfl

/-- C2 amended: the Executor enforces no timeout; whenever the `exec` of the
fragment does not terminate, the Executor call itself never completes and
produces no report, blocking its caller indefinitely. -/
theorem c2_no_timeout (behav : ExecBehavior) (code : List Char) (st : AiStats)
    (h : behav code = .hangs) : executeKbCode behav code st = .hangs := by
  unfold executeKbCode
  rw [h]

theorem c2_no_timeout_witness :
    executeKbCode hangBehavior (String.toList "while True:\n  pass") ⟨3, 1⟩ =
      .hangs :=
  c2_no_timeout hangBehavior (String.toList "while True:\n  pass") ⟨3, 1⟩ rfl

/-- C3 counterexample: the claim promises that the Executor never raises to
its caller, but `except Exception` at `ai_chat.py:211` does not catch an
exception outside the `Exception` hierarchy — a fragment calling
`sys.exit()` raises `SystemExit`, which escapes `_execute_kb_code` (attempt
counter bumped, error counter untouched) — and the rendering
`f"{type(e).__name__}: {e}"` at line 245 runs outside any `try`, so a caught
exception whose `str` itself raises also escapes (after both counters were
bumped).  In neither case is a report returned. -/
theorem c3_counterexample :
    executeKbCode sysExitBehavior (String.toList "import sys\nsys.exit()") ⟨0, 0⟩ =
        .raisesToCaller ⟨1, 0⟩ ∧
      executeKbCode badStrBehavior (String.toList "raise Weird()") ⟨0, 0⟩ =
        .raisesToCaller ⟨1, 1⟩ :=
  ⟨rfl, rfl⟩

/-- C3 amended: the Executor converts into the returned report exactly the
exceptions that derive from `Exception` and whose f-string rendering
succeeds: for such a raise `_execute_kb_code` returns a report ending with
the rendered error section instead of propagating.  An exception outside
the `Exception` hierarchy, or a failure of the rendering itself, escapes to
the caller (see the counterexample). -/
theorem c3_amended (behav : ExecBehavior) (code : List Char) (st : AiStats)
    (out e : List Char) (h : behav code = .raisedExc out (some e)) :
    isReport (executeKbCode behav code st) = true ∧
      reportHasSuffix (executeKbCode behav code st) (errBlock e) := by
  unfold executeKbCode
  rw [h]
  refine ⟨rfl, ?_⟩
  show List.IsSuffix (errBlock e) (formatExecResult out (some e))
  unfold formatExecResult
  obtain ⟨tb, htb⟩ := errBlock_cons e
  have hraw : ∀ z : List Char, (z ++ errBlock e).isEmpty = false := by
    intro z
    rw [htb]
    simp [List.isEmpty_iff]
  simp only [Option.isNone_some, Bool.false_eq_true, if_false, hraw]
  obtain ⟨tr, htr⟩ := errBlock_reverse e
  generalize (if (pyStrip out).isEmpty = true then ([] : List Char)
      else outHeader ++ previewOf (pyStrip out) ++ outFooter) = outPart
  have hex : ∃ y, (outPart ++ errBlock e).dropWhile isSpace = y ++ errBlock e := by
    rw [htb]
    exact dropWhile_append_suffix isSpace outPart '*' tb (by decide)
  obtain ⟨y, hy⟩ := hex
  have hstrip : pyStrip (outPart ++ errBlock e) = y ++ errBlock e := by
    unfold pyStrip
    rw [hy]
    exact dropTrailWs_append y (errBlock e) '`' tr htr (by decide)
  rw [hstrip]
  exact ⟨y, rfl⟩

theorem c3_amended_witness :
    isReport (executeKbCode raiseBehavior (String.toList "boom()") ⟨0, 0⟩) = true ∧
      reportHasSuffix (executeKbCode raiseBehavior (String.toList "boom()") ⟨0, 0⟩)
        (errBlock (String.toList "ValueError: boom")) :=
  c3_amended raiseBehavior (String.toList "boom()") ⟨0, 0⟩
    (String.toList "hi") (String.toList "ValueError: boom") rfl

/-- C6: when the marker pattern has no match in the response text, the loop
body never runs: the output equals the input exactly, the Executor is
invoked zero times, and the counters are untouched. -/
theorem c6_identity (behav : ExecBehavior) (st : AiStats) (s : List Char)
    (h : splitFirst s = none) : processResponse behav st s = .ok s st [] := by
  unfold processResponse processAux
  rw [h]
  rfl

theorem c6_identity_witness :
    processResponse hangBehavior ⟨5, 2⟩ (String.toList "The answer is 42.\n") =
      .ok (String.toList "The answer is 42.\n") ⟨5, 2⟩ [] :=
  c6_identity hangBehavior ⟨5, 2⟩ (String.toList "The answer is 42.\n") (by decide)

/-- C7: a fragment whose content is empty after trimming and fence
stripping is replaced by the fixed empty-block notice (with one spacing
newline when the preceding text needs it); `_execute_kb_code` is never
called, so the execution counters are unchanged and no code is run. -/
theorem c7_empty_fragment (behav : ExecBehavior) (st : AiStats)
    (s pre frag post : List Char)
    (h1 : splitFirst s = some (pre, frag, post))
    (h2 : extractCode frag = [])
    (h3 : splitFirst post = none) :
    processResponse behav st s = .ok (pre ++ emptyPad pre ++ post) st [] := by
  unfold processResponse processAux
  rw [h1]
  simp only [h2, List.isEmpty_nil, if_true, List.nil_append]
  cases hl : s.length with
  | zero =>
      unfold processAux
      rw [List.append_assoc]
  | succ n =>
      unfold processAux
      rw [h3, List.append_assoc]

theorem c7_empty_fragment_witness :
    processResponse hangBehavior ⟨2, 1⟩
        (String.toList
          "x%%PYTHON_EXECUTE_BLOCK_START%%  \n %%PYTHON_EXECUTE_BLOCK_END%%y") =
      .ok (String.toList "x" ++ emptyPad (String.toList "x") ++ String.toList "y") ⟨2, 1⟩ [] :=
  c7_empty_fragment hangBehavior ⟨2, 1⟩
    (String.toList "x%%PYTHON_EXECUTE_BLOCK_START%%  \n %%PYTHON_EXECUTE_BLOCK_END%%y")
    (String.toList "x") (String.toList "  \n ") (String.toList "y")
    (by decide) (by decide) (by decide)

/-- C9: in `kb_add` the file write precedes the in-memory update, and an
`IOError` from the write is caught and reported as a failure notice, so on
a failed write the knowledge-base mapping is returned unchanged. -/
theorem c9_write_failure (kb : KbMap) (name content e : List Char) :
    kbAdd kb name content (.error e) = (kb, .saveFailed e) := rfl

/-- The chunks taken greedily into a line, followed by the remainder, are
exactly the chunks that were offered. -/
theorem takeGreedy_append (w : Nat) :
    ∀ (n : Nat) (l : List (List Char)),
      (takeGreedy w n l).1 ++ (takeGreedy w n l).2 = l := by
  intro n l
  induction l generalizing n with
  | nil => rfl
  | cons c rest ih =>
      unfold takeGreedy
      by_cases hc : n + c.length ≤ w
      · simp only [hc, if_true]
        simpa using ih (n + c.length)
      · simp [hc]

/-- The remainder left by a greedy line is no longer than the input. -/
theorem takeGreedy_rest_le (w n : Nat) (l : List (List Char)) :
    (takeGreedy w n l).2.length ≤ l.length := by
  conv_rhs => rw [← takeGreedy_append w n l]
  simp

/-- Wrapping loses no characters: the flattened lines are the flattened
chunks (with sufficient fuel, which the callers always supply). -/
theorem wrapAux_flatten (w : Nat) :
    ∀ (fuel : Nat) (chunks : List (List Char)), chunks.length ≤ fuel →
      (wrapAux w fuel chunks).flatten = chunks.flatten := by
  intro fuel
  induction fuel with
  | zero =>
      intro chunks h
      rw [Nat.le_zero, List.length_eq_zero] at h
      subst h
      rfl
  | succ n ih =>
      intro chunks h
      match chunks with
      | [] => rfl
      | c :: rest =>
          unfold wrapAux
          by_cases hc : c.length ≤ w
          · simp only [hc, if_true]
            have hrest : (takeGreedy w c.length rest).2.length ≤ n := by
              have := takeGreedy_rest_le w c.length rest
              simp at h
              omega
            rw [List.flatten_cons, ih _ hrest]
            have hsplit := takeGreedy_append w c.length rest
            calc ((c :: (takeGreedy w c.length rest).1).flatten ++
                    (takeGreedy w c.length rest).2.flatten)
                = c ++ (((takeGreedy w c.length rest).1 ++
                    (takeGreedy w c.length rest).2).flatten) := by
                  simp [List.flatten_append]
              _ = (c :: rest).flatten := by rw [hsplit, List.flatten_cons]
          · simp only [hc, if_false]
            have hrest : rest.length ≤ n := by simp at h; omega
            rw [List.flatten_cons, ih _ hrest, List.flatten_cons]

/-- The whitespace split loses no characters. -/
theorem splitRunsAux_flatten :
    ∀ (fuel : Nat) (s : List Char), s.length ≤ fuel →
      (splitRunsAux fuel s).flatten = s := by
  intro fuel
  induction fuel with
  | zero =>
      intro s h
      rw [Nat.le_zero, List.length_eq_zero] at h
      subst h
      rfl
  | succ n ih =>
      intro s h
      match s with
      | [] => rfl
      | c :: t =>
          unfold splitRunsAux
          rw [List.flatten_cons]
          rw [List.span_eq_take_drop]
          have hlen : (t.dropWhile fun x => isSpace x == isSpace c).length ≤ n := by
            have : (t.dropWhile fun x => isSpace x == isSpace c).length ≤ t.length :=
              (t.dropWhile_sublist _).length_le
            simp at h
            omega
          rw [ih _ hlen]
          simp [List.takeWhile_append_dropWhile]

/-- Tab expansion is the identity on tab-free text. -/
theorem expandTabsAux_no_tab (ts : Nat) :
    ∀ (col : Nat) (s : List Char), '\t' ∉ s → expandTabsAux ts col s = s := by
  intro col s
  induction s generalizing col with
  | nil => intro _; rfl
  | cons c t ih =>
      intro h
      have hc : c ≠ '\t' := fun hh => h (hh ▸ List.mem_cons_self c t)
      have ht : '\t' ∉ t := fun hh => h (List.mem_cons_of_mem c hh)
      unfold expandTabsAux
      simp only [hc, if_false]
      by_cases hn : c = '\n' ∨ c = '\r'
      · simp [hn, ih _ ht]
      · simp [hn, ih _ ht]

/-- Unfolding step of `expandTabsAux` at a tab character. -/
theorem expandTabsAux_tab (ts col : Nat) (t : List Char) :
    expandTabsAux ts col ('\t' :: t) =
      List.replicate (ts - col % ts) ' ' ++
        expandTabsAux ts (col + (ts - col % ts)) t := rfl

/-- Unfolding step of `splitRunsAux` on a non-empty text. -/
theorem splitRunsAux_cons (fuel : Nat) (c : Char) (t : List Char) :
    splitRunsAux (fuel + 1) (c :: t) =
      (c :: (t.span fun x => isSpace x == isSpace c).1) ::
        splitRunsAux fuel (t.span fun x => isSpace x == isSpace c).2 := rfl

/-- `splitRunsAux` yields nothing on empty text, whatever the fuel. -/
theorem splitRunsAux_nil (fuel : Nat) : splitRunsAux fuel [] = [] := by
  cases fuel <;> rfl

/-- Unfolding step of `wrapAux` on a non-empty chunk list. -/
theorem wrapAux_cons (w fuel : Nat) (c : List Char) (rest : List (List Char)) :
    wrapAux w (fuel + 1) (c :: rest) =
      if c.length ≤ w then
        (c :: (takeGreedy w c.length rest).1).flatten ::
          wrapAux w fuel (takeGreedy w c.length rest).2
      else c :: wrapAux w fuel rest := rfl

/-- C4 counterexample: `textwrap.wrap` is called with its default
`expand_tabs=True`, so on a long response containing a tab the concatenated
parts differ from the input — the tab comes back as eight spaces, altering
whitespace. -/
theorem c4_counterexample :
    (chunkMessage ('\t' :: List.replicate 1990 'a')).flatten ≠
      '\t' :: List.replicate 1990 'a' := by
  have hmem : '\t' ∉ List.replicate 1990 'a' := by
    simp only [List.mem_replicate]
    decide
  have he : expandTabs 8 ('\t' :: List.replicate 1990 'a') =
      List.replicate 8 ' ' ++ List.replicate 1990 'a' := by
    unfold expandTabs
    rw [expandTabsAux_tab]
    norm_num
    exact expandTabsAux_no_tab 8 8 _ hmem
  have h1 : (chunkMessage ('\t' :: List.replicate 1990 'a')).flatten =
      List.replicate 8 ' ' ++ List.replicate 1990 'a' := by
    unfold chunkMessage
    rw [if_pos (by rw [List.length_cons, List.length_replicate]; omega)]
    unfold pyWrap
    rw [he, wrapAux_flatten 1990 _ _ (le_refl _)]
    unfold splitRuns
    rw [splitRunsAux_flatten _ _ (le_refl _)]
  rw [h1]
  intro hEq
  rw [show List.replicate 8 ' ' = ' ' :: List.replicate 7 ' ' from rfl,
    List.cons_append, List.cons.injEq] at hEq
  exact absurd hEq.1 (by decide)

/-- C4 amended: the concatenation of the produced parts equals the input
with each tab expanded to spaces (tab stops of eight); in particular, for
every response without a tab character the round trip is exact and no
whitespace is dropped, collapsed or altered. -/
theorem c4_amended (s : List Char) (h : '\t' ∉ s) :
    (chunkMessage s).flatten = s := by
  have he : expandTabs 8 s = s := expandTabsAux_no_tab 8 0 s h
  unfold chunkMessage pyWrap
  rw [he]
  by_cases hl : 1990 < s.length
  · rw [if_pos hl]
    rw [wrapAux_flatten 1990 _ _ (le_refl _)]
    exact splitRunsAux_flatten s.length s (le_refl _)
  · rw [if_neg hl]
    simp

theorem c4_amended_witness :
    (chunkMessage (List.replicate 1995 'a')).flatten = List.replicate 1995 'a' :=
  c4_amended (List.replicate 1995 'a') (by simp only [List.mem_replicate]; decide)

/-- Greedy line filling respects the width: starting from a running length
within the width, the flattened taken chunks stay within the width. -/
theorem takeGreedy_flatten_le (w : Nat) :
    ∀ (n : Nat) (l : List (List Char)), n ≤ w →
      n + (takeGreedy w n l).1.flatten.length ≤ w := by
  intro n l
  induction l generalizing n with
  | nil => intro h; simpa [takeGreedy] using h
  | cons c rest ih =>
      intro h
      unfold takeGreedy
      by_cases hc : n + c.length ≤ w
      · rw [if_pos hc]
        have := ih (n + c.length) hc
        simp only [List.flatten_cons, List.length_append]
        omega
      · rw [if_neg hc]
        simpa using h

/-- Every line produced by the wrapping loop stays within the width,
provided every chunk does. -/
theorem wrapAux_bound (w : Nat) :
    ∀ (fuel : Nat) (chunks : List (List Char)),
      (∀ c ∈ chunks, c.length ≤ w) →
      ∀ l ∈ wrapAux w fuel chunks, l.length ≤ w := by
  intro fuel
  induction fuel with
  | zero => intro chunks _ l hl; simp [wrapAux] at hl
  | succ n ih =>
      intro chunks hall l hl
      match chunks with
      | [] => simp [wrapAux] at hl
      | c :: rest =>
          have hc : c.length ≤ w := hall c (List.mem_cons_self c rest)
          rw [wrapAux_cons, if_pos hc] at hl
          rcases List.mem_cons.mp hl with hhead | htail
          · subst hhead
            have := takeGreedy_flatten_le w c.length rest hc
            simp only [List.flatten_cons, List.length_append]
            omega
          · refine ih (takeGreedy w c.length rest).2 ?_ l htail
            intro d hd
            refine hall d (List.mem_cons_of_mem c ?_)
            rw [← takeGreedy_append w c.length rest]
            exact List.mem_append_right _ hd

/-- C5 counterexample: `break_long_words=False` leaves a run of 1991
non-whitespace characters unsplit, so the single produced part is longer
than the 1990-character ceiling. -/
theorem c5_counterexample :
    chunkMessage (List.replicate 1991 'a') = [List.replicate 1991 'a'] ∧
      1990 < (List.replicate 1991 'a').length := by
  have hrep : List.replicate 1991 'a' = 'a' :: List.replicate 1990 'a' :=
    List.replicate_succ 'a' 1990
  have hlen : ¬ (List.replicate 1991 'a').length ≤ 1990 := by
    rw [List.length_replicate]
    omega
  constructor
  · unfold chunkMessage
    rw [if_pos (by rw [List.length_replicate]; omega)]
    unfold pyWrap
    have he : expandTabs 8 (List.replicate 1991 'a') = List.replicate 1991 'a' :=
      expandTabsAux_no_tab 8 0 _ (by simp only [List.mem_replicate]; decide)
    rw [he]
    have hs : splitRuns (List.replicate 1991 'a') = [List.replicate 1991 'a'] := by
      unfold splitRuns
      conv_lhs => rw [hrep, List.length_cons, List.length_replicate]
      rw [splitRunsAux_cons, List.span_eq_take_drop,
        List.takeWhile_replicate, List.dropWhile_replicate]
      rw [if_pos (by decide), if_pos (by decide), splitRunsAux_nil, ← hrep]
    rw [hs]
    show wrapAux 1990 (0 + 1) [List.replicate 1991 'a'] = _
    rw [wrapAux_cons, if_neg hlen]
    rfl
  · rw [List.length_replicate]
    omega

/-- C5 amended: every produced part has length at most 1990 provided no
maximal run of consecutive whitespace or consecutive non-whitespace
characters of the (tab-expanded) response exceeds 1990; a longer run is
emitted as one oversized part. -/
theorem c5_amended (s p : List Char)
    (hruns : ((splitRuns (expandTabs 8 s)).all fun c => Nat.ble c.length 1990) = true)
    (hp : p ∈ chunkMessage s) : p.length ≤ 1990 := by
  unfold chunkMessage at hp
  by_cases hl : 1990 < s.length
  · rw [if_pos hl] at hp
    unfold pyWrap at hp
    have hall : ∀ c ∈ splitRuns (expandTabs 8 s), c.length ≤ 1990 := by
      intro c hc
      exact Nat.le_of_ble_eq_true (List.all_eq_true.mp hruns c hc)
    exact wrapAux_bound 1990 _ _ hall p hp
  · rw [if_neg hl] at hp
    simp at hp
    subst hp
    omega

theorem c5_amended_witness :
    String.toList "one two" ∈ chunkMessage (String.toList "one two") ∧
      (String.toList "one two").length ≤ 1990 :=
  ⟨by decide,
    c5_amended (String.toList "one two") (String.toList "one two")
      (by decide) (by decide)⟩

/-- C8 counterexample: the first fence substitution deletes only the literal
prefix `` ```python `` (case-insensitively, with surrounding whitespace), so
a fragment fenced with the tag `js` keeps its whole leading fence line — the
text handed to `exec` still begins with the backtick fence instead of the
bare code — and a fragment fenced with the tag `python3` loses just the
`` ```python `` prefix, leaving the stray `3` in the executable text.  In
neither case is the leading fence line stripped as the claim describes. -/
theorem c8_counterexample :
    extractCode (String.toList "```js\nprint(1)\n```") =
        String.toList "```js\nprint(1)" ∧
      extractCode (String.toList "```js\nprint(1)\n```") ≠
        String.toList "print(1)" ∧
      extractCode (String.toList "```python3\nprint(1)\n```") =
        String.toList "3\nprint(1)" := by
  refine ⟨by decide, by decide, by decide⟩

/-- C8 amended: the pre-execution step strips the fence pair only for a
leading fence line tagged `python` (case-insensitively): for a trimmed body
with no spurious trailing-fence match inside, extraction of
`` ```python ``-fenced code returns exactly the body.  For other tags the
fence line is not stripped as a line: the counterexample shows the
`js`-tagged fence kept whole and a `python3` tag losing only its
`` ```python `` prefix. -/
theorem c8_amended (body : List Char)
    (h1 : body.dropWhile isSpace = body)
    (h2 : dropTrailWs body = body)
    (h3 : body ≠ [])
    (h4 : trailFenceIdx (body ++ String.toList "\n```") = some body.length) :
    extractCode (String.toList "```python\n" ++ body ++ String.toList "\n```") =
      body := by
  obtain ⟨b, body', rfl⟩ : ∃ b t, body = b :: t := by
    cases body with
    | nil => exact absurd rfl h3
    | cons b t => exact ⟨b, t, rfl⟩
  have hb : isSpace b = false := head_false_of_dropWhile_eq isSpace b body' h1
  have hfragdw :
      (String.toList "```python\n" ++ ((b :: body') ++ String.toList "\n```")).dropWhile
          isSpace =
        String.toList "```python\n" ++ ((b :: body') ++ String.toList "\n```") := by
    rw [show String.toList "```python\n" ++ ((b :: body') ++ String.toList "\n```") =
        '`' :: (String.toList "``python\n" ++ ((b :: body') ++ String.toList "\n```"))
      from rfl]
    rw [List.dropWhile_cons, if_neg (by decide)]
  have hfragstrip :
      pyStrip (String.toList "```python\n" ++ ((b :: body') ++ String.toList "\n```")) =
        String.toList "```python\n" ++ ((b :: body') ++ String.toList "\n```") := by
    unfold pyStrip
    rw [hfragdw]
    rw [show String.toList "```python\n" ++ ((b :: body') ++ String.toList "\n```") =
        (String.toList "```python\n" ++ (b :: body')) ++ String.toList "\n```"
      from by rw [List.append_assoc]]
    exact dropTrailWs_append (String.toList "```python\n" ++ (b :: body'))
      (String.toList "\n```") '`' (String.toList "``\n") rfl (by decide)
  have hlead :
      stripLeadFence
          (String.toList "```python\n" ++ ((b :: body') ++ String.toList "\n```")) =
        (b :: body') ++ String.toList "\n```" := by
    simp only [stripLeadFence]
    rw [hfragdw]
    rw [show String.toList "```python\n" ++ ((b :: body') ++ String.toList "\n```") =
        pythonFence ++ ('\n' :: ((b :: body') ++ String.toList "\n```")) from rfl]
    rw [List.take_left, List.drop_left, if_pos (by decide)]
    rw [List.dropWhile_cons, if_pos (by decide)]
    rw [List.cons_append, List.dropWhile_cons, if_neg (by simp [hb])]
  have htrail :
      stripTrailFence ((b :: body') ++ String.toList "\n```") = b :: body' := by
    simp only [stripTrailFence, h4]
    exact List.take_left (b :: body') (String.toList "\n```")
  unfold extractCode
  rw [List.append_assoc]
  rw [hfragstrip, hlead, htrail]
  unfold pyStrip
  rw [h1, h2]

theorem c8_amended_witness :
    extractCode (String.toList "```python\n" ++ String.toList "print(1+1)" ++
        String.toList "\n```") =
      String.toList "print(1+1)" :=
  c8_amended (String.toList "print(1+1)") (by decide) (by decide) (by decide) (by decide)

/-- C10: `get_ai_stats` sorts the per-user entries by descending question
count, keeps at most the first five, and projects them onto the display
records, so `top_users` has at most five entries in non-increasing order of
question count. -/
theorem c10_top_users (tq tr ac kb ce cee : Nat)
    (users : List (List Char × UserStat)) :
    (getAiStats tq tr ac kb ce cee users).topUsers.length ≤ 5 ∧
      (getAiStats tq tr ac kb ce cee users).topUsers.Pairwise
        (fun a b => b.questionCount ≤ a.questionCount) := by
  unfold getAiStats topUsersOf
  cases users with
  | nil => exact ⟨by simp, by simp⟩
  | cons u us =>
      constructor
      · simp only [List.length_map, List.length_take]
        omega
      · rw [List.pairwise_map]
        have hs : ((u :: us).insertionSort byCountDesc).Pairwise byCountDesc :=
          List.sorted_insertionSort byCountDesc (u :: us)
        have ht : (((u :: us).insertionSort byCountDesc).take 5).Pairwise byCountDesc :=
          hs.sublist (List.take_sublist 5 _)
        exact ht.imp fun h => h

end AiChat
